import Mathlib

/-!
Verification development for the Pulse video backend.

The definitions below are a shallow embedding of the media-processing
pipeline of the repository:

* `VideoProcessing` embeds `src/backend/src/services/videoProcessing.js`
  (the sensitivity classifier `analyzeSensitivity`, the thumbnail
  timestamp chosen by `processVideo`, and the duration arithmetic of the
  returned metadata).  JavaScript numbers are modelled as rationals and
  `Math.round` / `Math.floor` as explicit integer operations.
* `ProcessingQueue` embeds `src/backend/src/services/processingQueue.js`:
  the queue state, the `enqueue`/`start`/`stop`/`clear` operations, the
  synchronous portion of `processNext` (one scheduler-chain activation of
  the event loop), and the job body `processJob`.  The JavaScript event
  loop is modelled by a labelled transition system: a `setTimeout` /
  `setImmediate` callback is a unit of `scheduled` work, and the
  completion of an in-flight job body is a `complete` transition (the
  `finally` block of `processNext`).
-/

namespace VideoProcessing

/-- Substring test mirroring JavaScript `String.prototype.includes`. -/
def strIncludes (s pat : String) : Bool :=
  decide (pat.data <:+: s.data)

/-- Input to `analyzeSensitivity` (videoProcessing.js lines 253-326): the
metadata object with `duration`, `size`, the optional primary video stream
(width, height) and the presence of an audio stream. -/
structure ClassifierInput where
  duration : ℚ
  size : ℚ
  video : Option (ℚ × ℚ)
  audio : Bool
deriving DecidableEq

/-- Fixed keyword list of rule 3 (videoProcessing.js lines 276-284). -/
def sensitiveKeywords : List String :=
  ["explicit", "nsfw", "adult", "18+", "mature", "violence", "graphic"]

/-- Rule 1 (lines 258-263): flag very short, else very long, durations. -/
def durationFlags (m : ClassifierInput) : List String :=
  if m.duration < 5 then ["Very short duration (< 5 seconds)"]
  else if m.duration > 3600 then ["Very long duration (> 1 hour)"]
  else []

/-- Rule 2 (lines 266-273): flag unusual aspect ratios; width and height
default to 0 when the video stream is absent (`metadata.video?.width || 0`). -/
def aspectFlags (m : ClassifierInput) : List String :=
  let width := ((m.video.map Prod.fst).getD 0 : ℚ)
  let height := ((m.video.map Prod.snd).getD 0 : ℚ)
  if 0 < width ∧ 0 < height then
    if width / height < 1/2 ∨ 3 < width / height then ["Unusual aspect ratio"]
    else []
  else []

/-- Rule 3 (lines 285-293): first keyword of the fixed list that occurs in
the lowercased `title ++ " " ++ description`, if any (the loop breaks at
the first match). -/
def keywordHit (title description : String) : Option String :=
  sensitiveKeywords.find? (fun kw => strIncludes ((title ++ " " ++ description).toLower) kw)

/-- Flag appended by rule 3 for the first matching keyword. -/
def keywordFlags (title description : String) : List String :=
  match keywordHit title description with
  | some kw => ["Contains sensitive keyword: " ++ kw]
  | none => []

/-- Rule 4 (lines 296-302): the size/duration bitrate proxy, evaluated only
under the `metadata.duration > 0` guard. -/
def lowBitrateFlags (m : ClassifierInput) : List String :=
  if 0 < m.duration then
    if m.size / m.duration < 10000 then ["Unusually low bitrate/quality"]
    else []
  else []

/-- Rule 5 (lines 305-307): missing audio stream on a video longer than 30s. -/
def noAudioFlags (m : ClassifierInput) : List String :=
  if m.audio = false ∧ 30 < m.duration then ["No audio stream in video > 30s"]
  else []

/-- Result of `analyzeSensitivity` (the `analyzedAt` timestamp is omitted:
it carries no semantic content). -/
structure SensitivityResult where
  sensitivity : String
  flags : List String
deriving DecidableEq

/-- Final reassignments of the `sensitivity` variable (videoProcessing.js
lines 309-319): its value entering this code is `"flagged"` exactly when
rule 3 matched a keyword (`kwForced`); three or more flags then force
`flagged`, an empty flag list yields `safe`, and a non-`flagged` level
with flags yields `unknown`. -/
def finalLevel (kwForced : Bool) (flags : List String) : String :=
  let s0 := if kwForced then "flagged" else "safe"
  let s1 := if 3 ≤ flags.length ∧ s0 ≠ "flagged" then "flagged" else s0
  if flags.length = 0 then "safe" else if s1 ≠ "flagged" then "unknown" else s1

/-- Embedding of `analyzeSensitivity` (videoProcessing.js lines 253-326):
rules 1-5 append flags in order, then the final level is determined from
the keyword hit and the flag count. -/
def analyzeSensitivity (m : ClassifierInput) (title description : String) :
    SensitivityResult :=
  let flags := durationFlags m ++ aspectFlags m ++ keywordFlags title description
      ++ lowBitrateFlags m ++ noAudioFlags m
  ⟨finalLevel (keywordHit title description).isSome flags, flags⟩

/-- Timestamp at which `processVideo` captures the still frame
(videoProcessing.js line 353): `Math.min(1, metadata.duration / 2)`. -/
def thumbnailTimestamp (duration : ℚ) : ℚ :=
  min 1 (duration / 2)

/-- Modelled from the spec: "a single still-frame thumbnail image near the
midpoint of the video (clamped to not exceed duration)" — the midpoint
`duration / 2`, clamped so it does not exceed `duration`.  This definition
follows the wording of the spec; the source computes `thumbnailTimestamp`. -/
def specMidpointTimestamp (duration : ℚ) : ℚ :=
  min (duration / 2) duration

/-- JavaScript `Math.round`: floor of the argument plus one half. -/
def jsRound (q : ℚ) : ℤ :=
  ⌊q + 1/2⌋

/-- Duration placed in the result of `processVideo` (videoProcessing.js
line 383): `Math.round(metadata.duration)`. -/
def processVideoDuration (rawDuration : ℚ) : ℤ :=
  jsRound rawDuration

/-- Modelled from the spec: "duration (seconds, fractional truncated to
whole seconds on output)" — truncation of the fractional part.  This
definition follows the wording of the spec; the source computes
`processVideoDuration`. -/
def specTruncatedDuration (rawDuration : ℚ) : ℤ :=
  ⌊rawDuration⌋

end VideoProcessing

namespace ProcessingQueue

/-- State of the `VideoProcessingQueue` singleton plus the scheduler
chains of the event loop.  `queue` is `this.queue`, `processing` is
`this.processing` (a JavaScript `Set`, modelled as its insertion-ordered
list of distinct elements), `maxConcurrent` and `isRunning` are the
corresponding fields.  `scheduled` counts the `processNext` callbacks
currently registered with `setTimeout`/`setImmediate`; every member of
`processing` additionally owns one scheduler chain suspended at
`await this.processJob(videoId)`. -/
structure QState where
  queue : List String
  processing : List String
  maxConcurrent : ℕ
  isRunning : Bool
  scheduled : ℕ
deriving DecidableEq

/-- JavaScript `Set.prototype.add`: append if not present. -/
def setAdd (l : List String) (v : String) : List String :=
  if v ∈ l then l else l ++ [v]

/-- Constructor state (processingQueue.js lines 12-20) with the given
`maxConcurrent`. -/
def initState (maxConcurrent : ℕ) : QState :=
  ⟨[], [], maxConcurrent, false, 0⟩

/-- Synchronous portion of one `processNext` activation (lines 74-109).
If the queue is stopped the chain dies; at capacity, or on an empty
queue, a retry is scheduled (`setTimeout`, 1s); a falsy shifted head
(`if (!videoId)`, which an empty-string id also satisfies) is dropped and
a retry is scheduled; otherwise the head is moved into `processing` and
the chain suspends at `await this.processJob(videoId)` — its resumption
is the `complete` transition below. -/
def processNextStep (s : QState) : QState :=
  if s.isRunning = false then s
  else if s.maxConcurrent ≤ s.processing.length then
    { s with scheduled := s.scheduled + 1 }
  else
    match s.queue with
    | [] => { s with scheduled := s.scheduled + 1 }
    | v :: rest =>
      if v = "" then { s with queue := rest, scheduled := s.scheduled + 1 }
      else { s with queue := rest, processing := setAdd s.processing v }

/-- The `start` method (lines 51-60): a no-op when already running,
otherwise it sets `isRunning` and synchronously runs `processNext` once. -/
def start (s : QState) : QState :=
  if s.isRunning then s else processNextStep { s with isRunning := true }

/-- The `stop` method (lines 65-69). -/
def stop (s : QState) : QState :=
  { s with isRunning := false }

/-- The `clear` method (lines 228-232). -/
def clear (s : QState) : QState :=
  { s with queue := [], processing := [] }

/-- The `enqueue` method (lines 35-46): push the id when it is in neither
the pending list nor the in-flight set, then auto-start the scheduler if
it is not running; otherwise do nothing. -/
def enqueue (s : QState) (v : String) : QState :=
  if v ∉ s.queue ∧ v ∉ s.processing then
    let s1 : QState := { s with queue := s.queue ++ [v] }
    if s1.isRunning then s1 else start s1
  else s

/-- Labels of the queue transition system: the four public mutators, the
firing of a scheduled `processNext` callback, and the completion of an
in-flight job body (the `finally` block of lines 101-108, which removes
the id from `processing` and schedules `processNext` via `setImmediate`). -/
inductive QLabel where
  | enq (v : String)
  | start
  | stop
  | clear
  | runScheduled
  | complete (v : String)
deriving DecidableEq

/-- Labelled small-step relation over `QState`. -/
inductive LStep : QLabel → QState → QState → Prop where
  | enq (s : QState) (v : String) : LStep (.enq v) s (enqueue s v)
  | start (s : QState) : LStep .start s (start s)
  | stop (s : QState) : LStep .stop s (stop s)
  | clear (s : QState) : LStep .clear s (clear s)
  | runScheduled (s : QState) (h : 0 < s.scheduled) :
      LStep .runScheduled s (processNextStep { s with scheduled := s.scheduled - 1 })
  | complete (s : QState) (v : String) (h : v ∈ s.processing) :
      LStep (.complete v) s
        { s with processing := s.processing.erase v, scheduled := s.scheduled + 1 }

/-- A step with any label. -/
def Step (s t : QState) : Prop :=
  ∃ l, LStep l s t

/-- States reachable from the freshly constructed queue by any sequence of
`enqueue`/`start`/`stop`/`clear` calls and scheduler-loop steps. -/
def Reachable (maxConcurrent : ℕ) (s : QState) : Prop :=
  Relation.ReflTransGen Step (initState maxConcurrent) s

/-- A step whose label avoids a given set of labels. -/
def StepAvoiding (bad : QLabel → Prop) (s t : QState) : Prop :=
  ∃ l, ¬ bad l ∧ LStep l s t

/-- Reachability along steps avoiding the given labels. -/
def ReachAvoiding (bad : QLabel → Prop) (s t : QState) : Prop :=
  Relation.ReflTransGen (StepAvoiding bad) s t

/-- Number of occurrences of an id across the pending list and the
in-flight set. -/
def occCount (s : QState) (v : String) : ℕ :=
  s.queue.count v + (if v ∈ s.processing then 1 else 0)

/-- Video document as touched by `processJob` (schema in
`src/backend/src/models/Video.js`).  `sensitivity` defaults to
`"unknown"` and `sensitivityFlags` to `[]` in the schema, so they are
always present; the remaining derived fields and `processingError` have
no defaults and are modelled as optional. -/
structure VideoRecord where
  ownerUserId : String
  title : String
  description : String
  status : String
  sensitivity : String
  sensitivityFlags : List String
  duration : Option ℤ
  resolution : Option (ℤ × ℤ)
  codec : Option String
  format : Option String
  thumbnailFilename : Option String
  processingError : Option String
deriving DecidableEq

/-- Metadata object of a successful `processVideo` result
(videoProcessing.js lines 380-392); `duration` is already rounded there. -/
structure ProcMetadata where
  duration : ℤ
  width : ℤ
  height : ℤ
  codec : String
  format : String
deriving DecidableEq

/-- Outcome of `await processVideo(video, ...)`.  `processVideo` catches
every internal error and returns `success: false` with a message, so the
call itself never rejects (videoProcessing.js lines 398-421). -/
inductive ProcResult where
  | success (metadata : ProcMetadata) (thumbnail : String)
      (sensitivity : String) (sensitivityFlags : List String)
  | failure (error : String)
deriving DecidableEq

/-- Observable actions of one `processJob` run: `console.error` logging,
the socket emissions (`emitProcessingStatus`, `emitProcessingProgress`,
`emitProcessingError`), the call into `processVideo` (inside which all
Blob Store downloads and Media Inspector work happen), and the own `EventEmitter` events of the queue. -/
inductive JobEvent where
  | logError (message : String)
  | statusEmit (userId videoId status : String) (sensitivity : Option String)
      (sensitivityFlags : Option (List String))
  | progressEmit (userId videoId : String) (percent : ℕ)
  | errorEmit (userId videoId message : String)
  | processVideoCall (videoId : String)
  | queueEvent (name : String)
deriving DecidableEq

/-- Boolean discriminator for the `processVideoCall` event. -/
def isProcessVideoCall : JobEvent → Bool
  | .processVideoCall _ => true
  | _ => false

/-- Embedding of `processJob` (processingQueue.js lines 115-210).  The
`Video.findById` outcome is the `record` argument (`none` = absent) and
the `processVideo` outcome is the `proc` argument; persistence
(`video.save()`) is modelled as resolving, which makes the catch-all
branch of lines 188-209 unreachable.  The result is the record as last
saved (`none` when no save happened) together with the ordered list of
observable actions. -/
def processJob (record : Option VideoRecord) (proc : ProcResult)
    (videoId : String) : Option VideoRecord × List JobEvent :=
  match record with
  | none => (none, [.logError ("Video " ++ videoId ++ " not found in database")])
  | some video =>
    let userId := video.ownerUserId
    let v1 : VideoRecord := { video with status := "processing" }
    let pre : List JobEvent :=
      [.statusEmit userId videoId "processing" none none,
       .progressEmit userId videoId 0,
       .progressEmit userId videoId 25,
       .processVideoCall videoId,
       .progressEmit userId videoId 75]
    match proc with
    | .success md thumb sens flags =>
      let v2 : VideoRecord :=
        { v1 with duration := some md.duration,
                  resolution := some (md.width, md.height),
                  codec := some md.codec,
                  format := some md.format,
                  thumbnailFilename := some thumb,
                  sensitivity := sens,
                  sensitivityFlags := flags,
                  status := "ready" }
      (some v2,
       pre ++ [.progressEmit userId videoId 100,
               .statusEmit userId videoId "ready" (some sens) (some flags),
               .queueEvent "success"])
    | .failure err =>
      let v2 : VideoRecord := { v1 with status := "failed", processingError := some err }
      (some v2,
       pre ++ [.errorEmit userId videoId err,
               .statusEmit userId videoId "failed" none none,
               .queueEvent "failed"])

/-- Terminal configuration `ready`: status `"ready"`, every optional
derived field populated, `processingError` absent. -/
def readyConfig (r : VideoRecord) : Prop :=
  r.status = "ready" ∧ r.duration.isSome = true ∧ r.resolution.isSome = true ∧
  r.codec.isSome = true ∧ r.format.isSome = true ∧
  r.thumbnailFilename.isSome = true ∧ r.processingError = none

/-- Terminal configuration `failed`: status `"failed"`, `processingError`
present, optional derived fields unpopulated. -/
def failedConfig (r : VideoRecord) : Prop :=
  r.status = "failed" ∧ r.processingError.isSome = true ∧ r.duration = none ∧
  r.resolution = none ∧ r.codec = none ∧ r.format = none ∧
  r.thumbnailFilename = none

/-- Exactly one of the two terminal configurations holds. -/
def terminalExclusive (r : VideoRecord) : Prop :=
  (readyConfig r ∧ ¬ failedConfig r) ∨ (failedConfig r ∧ ¬ readyConfig r)

instance (r : VideoRecord) : Decidable (readyConfig r) := by
  unfold readyConfig
  infer_instance

instance (r : VideoRecord) : Decidable (failedConfig r) := by
  unfold failedConfig
  infer_instance

instance (r : VideoRecord) : Decidable (terminalExclusive r) := by
  unfold terminalExclusive
  infer_instance

/-- A record that failed an earlier processing attempt and was then
re-enqueued: `processingError` is still populated from that attempt. -/
def staleFailedVideo : VideoRecord :=
  { ownerUserId := "u1", title := "t", description := "", status := "failed",
    sensitivity := "unknown", sensitivityFlags := [],
    duration := none, resolution := none, codec := none, format := none,
    thumbnailFilename := none, processingError := some "Processing failed" }

/-- A freshly uploaded record: no derived fields, no error. -/
def freshVideo : VideoRecord :=
  { ownerUserId := "u1", title := "t", description := "", status := "uploaded",
    sensitivity := "unknown", sensitivityFlags := [],
    duration := none, resolution := none, codec := none, format := none,
    thumbnailFilename := none, processingError := none }

/-- A successful `processVideo` outcome used as a concrete input. -/
def retrySuccess : ProcResult :=
  .success { duration := 120, width := 1920, height := 1080,
             codec := "h264", format := "mp4" } "thumb-v.jpg" "safe" []

/-- Record saved by `processJob` when the stale-failed record is
re-processed successfully. -/
def retriedRecord : VideoRecord :=
  ((processJob (some staleFailedVideo) retrySuccess "v1").1).getD staleFailedVideo

/-- Queue state after `enqueue("v1"); enqueue("v2")` on a fresh queue with
`maxConcurrent = 2`: the auto-started scheduler chain has dispatched `v1`
and is suspended at `await this.processJob("v1")`; `v2` is pending. -/
def s2c4 : QState :=
  enqueue (enqueue (initState 2) "v1") "v2"

/-- Labels excluded when asking whether `v2` can be dispatched while
the job body of `v1` is still executing: stopping/clearing the queue and
the completion of that job. -/
def c4Bad (l : QLabel) : Prop :=
  l = .stop ∨ l = .clear ∨ l = .complete "v1"

end ProcessingQueue

open VideoProcessing ProcessingQueue

/-- C7 counterexample: for a 10-second video `processVideo` captures the
still frame at `min(1, 10/2) = 1` second, not at the duration-clamped
midpoint required by the spec `min(10/2, 10) = 5` seconds. -/
theorem thumbnailTimestamp_not_midpoint :
    thumbnailTimestamp 10 = 1 ∧ specMidpointTimestamp 10 = 5 ∧
    thumbnailTimestamp 10 ≠ specMidpointTimestamp 10 := by
  refine ⟨?_, ?_, ?_⟩ <;>
    norm_num [thumbnailTimestamp, specMidpointTimestamp, min_def]

/-- C7 amended: the still frame is captured at `min 1 (duration / 2)`
seconds — one second into the video, falling back to the midpoint exactly
for videos shorter than two seconds — and for nonnegative durations this
timestamp never exceeds the duration. -/
theorem thumbnailTimestamp_clamped (d : ℚ) (hd : 0 ≤ d) :
    thumbnailTimestamp d ≤ d ∧ (d < 2 → thumbnailTimestamp d = d / 2) ∧
    (2 ≤ d → thumbnailTimestamp d = 1) := by
  unfold thumbnailTimestamp
  refine ⟨?_, ?_, ?_⟩
  · have h1 : min 1 (d / 2) ≤ d / 2 := min_le_right _ _
    linarith
  · intro h
    rw [min_eq_right]
    linarith
  · intro h
    rw [min_eq_left]
    linarith

/-- Witness for `thumbnailTimestamp_clamped` at duration 10. -/
theorem thumbnailTimestamp_clamped_witness :
    (0 : ℚ) ≤ 10 ∧
    (thumbnailTimestamp 10 ≤ 10 ∧ ((10 : ℚ) < 2 → thumbnailTimestamp 10 = 10 / 2) ∧
     ((2 : ℚ) ≤ 10 → thumbnailTimestamp 10 = 1)) :=
  ⟨by norm_num, thumbnailTimestamp_clamped 10 (by norm_num)⟩

/-- C8 counterexample: a raw duration of 5.7 seconds is stored as
`Math.round(5.7) = 6`, not as the truncation 5 claimed by the spec. -/
theorem processVideoDuration_rounds_not_truncates :
    processVideoDuration (57/10) = 6 ∧ specTruncatedDuration (57/10) = 5 ∧
    processVideoDuration (57/10) ≠ specTruncatedDuration (57/10) := by
  have h6 : processVideoDuration (57/10) = 6 := by
    unfold processVideoDuration jsRound
    rw [Int.floor_eq_iff]
    norm_num
  have h5 : specTruncatedDuration (57/10) = 5 := by
    unfold specTruncatedDuration
    rw [Int.floor_eq_iff]
    norm_num
  refine ⟨h6, h5, ?_⟩
  rw [h6, h5]
  decide

/-- C8 amended: the duration stored by `processVideo` is the raw duration
rounded to the nearest whole second, halves rounding up (`Math.round`):
fractional parts below one half are dropped, fractional parts of one half
or more round up, so 5.7 yields 6. -/
theorem processVideoDuration_nearest (n : ℤ) (f : ℚ) (h0 : 0 ≤ f) (h1 : f < 1) :
    processVideoDuration ((n : ℚ) + f) = if f < 1/2 then n else n + 1 := by
  unfold processVideoDuration jsRound
  split_ifs with hf
  · rw [Int.floor_eq_iff]
    constructor
    · linarith
    · linarith
  · have hf2 : 1/2 ≤ f := not_lt.mp hf
    rw [Int.floor_eq_iff]
    constructor
    · push_cast
      linarith
    · push_cast
      linarith

/-- Witness for `processVideoDuration_nearest` at raw duration 5.7. -/
theorem processVideoDuration_nearest_witness :
    (0 : ℚ) ≤ 7/10 ∧ (7/10 : ℚ) < 1 ∧
    processVideoDuration (((5 : ℤ) : ℚ) + 7/10) =
      if (7/10 : ℚ) < 1/2 then (5 : ℤ) else 5 + 1 :=
  ⟨by norm_num, by norm_num, processVideoDuration_nearest 5 (7/10) (by norm_num) (by norm_num)⟩

/-- C5: when the record store holds no record for the dequeued id,
`processJob` returns normally with no save, its only observable action is
the `error`-class log, and in particular `processVideo` — inside which
every Blob Store download and Media Inspector call happens — is never
invoked, whatever the processing oracle would have returned. -/
theorem processJob_missing_record (proc : ProcResult) (videoId : String) :
    (processJob none proc videoId).1 = none ∧
    (processJob none proc videoId).2 =
      [JobEvent.logError ("Video " ++ videoId ++ " not found in database")] ∧
    ((processJob none proc videoId).2.all fun e => !isProcessVideoCall e) = true :=
  ⟨rfl, rfl, rfl⟩

/-- C10: when `processVideo` reports failure, the job body emits, in
order: the `processing` status, progress 0, progress 25, the
`processVideo` call, progress 75, then the error notification, the
`failed` status, and the `failed` event of the queue — so progress 0/25/75 all
reach the owner before the error and the `failed` status, and a client
may observe progress 75 followed by status `failed`. -/
theorem processJob_failure_trace (video : VideoRecord) (err videoId : String) :
    (processJob (some video) (.failure err) videoId).2 =
      [JobEvent.statusEmit video.ownerUserId videoId "processing" none none,
       JobEvent.progressEmit video.ownerUserId videoId 0,
       JobEvent.progressEmit video.ownerUserId videoId 25,
       JobEvent.processVideoCall videoId,
       JobEvent.progressEmit video.ownerUserId videoId 75,
       JobEvent.errorEmit video.ownerUserId videoId err,
       JobEvent.statusEmit video.ownerUserId videoId "failed" none none,
       JobEvent.queueEvent "failed"] :=
  rfl

/-- C6: the final sensitivity level of `analyzeSensitivity` is `flagged`
when a keyword match forced it; otherwise `safe` on an empty flag list,
`flagged` on three or more flags, and `unknown` in between. -/
theorem analyzeSensitivity_final_level (m : ClassifierInput) (title description : String) :
    (analyzeSensitivity m title description).sensitivity =
      if (keywordHit title description).isSome then "flagged"
      else if (analyzeSensitivity m title description).flags.length = 0 then "safe"
      else if 3 ≤ (analyzeSensitivity m title description).flags.length then "flagged"
      else "unknown" := by
  have hsens : (analyzeSensitivity m title description).sensitivity =
      finalLevel (keywordHit title description).isSome
        (analyzeSensitivity m title description).flags := rfl
  rw [hsens]
  set F := (analyzeSensitivity m title description).flags with hFdef
  have hne : (keywordHit title description).isSome = true → F ≠ [] := by
    intro hk
    rcases hh : keywordHit title description with _ | kw
    · rw [hh] at hk
      simp at hk
    · rw [hFdef]
      show durationFlags m ++ aspectFlags m ++ keywordFlags title description ++
        lowBitrateFlags m ++ noAudioFlags m ≠ []
      simp [keywordFlags, hh]
  have hsf : ("safe" : String) ≠ "flagged" := by decide
  cases hk : (keywordHit title description).isSome with
  | true =>
    have h0 : F.length ≠ 0 := by
      simpa [List.length_eq_zero] using hne hk
    simp [finalLevel, h0]
  | false =>
    by_cases h0 : F.length = 0
    · simp [finalLevel, h0]
    · by_cases h3 : 3 ≤ F.length
      · simp [finalLevel, h0, h3, hsf]
      · simp [finalLevel, h0, h3, hsf]

/-- C9: when the metadata duration is nonpositive, the bitrate-proxy
rule is skipped entirely: its guarded division contributes no flag, and
the low-bitrate flag never appears in the classifier output, whatever
the size, title and description. -/
theorem lowBitrateFlags_guarded (m : ClassifierInput) (title description : String)
    (h : m.duration ≤ 0) :
    lowBitrateFlags m = [] ∧
    "Unusually low bitrate/quality" ∉ (analyzeSensitivity m title description).flags := by
  have hlb : lowBitrateFlags m = [] := by
    unfold lowBitrateFlags
    rw [if_neg (not_lt.mpr h)]
  refine ⟨hlb, ?_⟩
  simp only [analyzeSensitivity, hlb, List.append_nil, List.mem_append, not_or]
  refine ⟨⟨⟨?_, ?_⟩, ?_⟩, ?_⟩
  · unfold durationFlags
    split_ifs <;> decide
  · simp only [aspectFlags]
    split_ifs <;> decide
  · unfold keywordFlags
    rcases hh : keywordHit title description with _ | kw
    · decide
    · have hmem : kw ∈ sensitiveKeywords := List.mem_of_find?_eq_some hh
      simp only [sensitiveKeywords, List.mem_cons, List.mem_singleton,
        List.not_mem_nil, or_false] at hmem
      rcases hmem with h1 | h1 | h1 | h1 | h1 | h1 | h1 <;> subst h1 <;> decide
  · unfold noAudioFlags
    split_ifs <;> decide

/-- C3 counterexample: re-processing a record that failed an earlier
attempt and succeeding leaves it in status `ready` with the stale
`processingError` still populated — the success path of `processJob`
never clears `processingError`, so the record satisfies neither terminal
configuration. -/
theorem processJob_retry_breaks_exclusivity :
    (processJob (some staleFailedVideo) retrySuccess "v1").1 = some retriedRecord ∧
    retriedRecord.status = "ready" ∧
    retriedRecord.processingError = some "Processing failed" ∧
    ¬ terminalExclusive retriedRecord := by
  refine ⟨rfl, rfl, rfl, ?_⟩
  decide

/-- C3 amended: for a record whose optional derived fields and
`processingError` are all unset when the job starts, a completed job body
leaves exactly one terminal configuration: `ready` with every derived
field populated and `processingError` absent on success, or `failed` with
`processingError` set and derived fields unpopulated on failure.  (A
record re-enqueued after an earlier failure does not satisfy this
precondition, and a later success keeps the stale `processingError`.) -/
theorem processJob_terminal_exclusive (video : VideoRecord) (proc : ProcResult)
    (videoId : String)
    (hdur : video.duration = none) (hres : video.resolution = none)
    (hcod : video.codec = none) (hfmt : video.format = none)
    (hthumb : video.thumbnailFilename = none) (herr : video.processingError = none) :
    ∃ r, (processJob (some video) proc videoId).1 = some r ∧ terminalExclusive r := by
  cases proc with
  | success md thumb sens flags =>
    refine ⟨_, rfl, Or.inl ⟨?_, ?_⟩⟩
    · exact ⟨rfl, rfl, rfl, rfl, rfl, rfl, herr⟩
    · intro hc
      have hns : ("ready" : String) ≠ "failed" := by decide
      exact hns hc.1
  | failure err =>
    refine ⟨_, rfl, Or.inr ⟨?_, ?_⟩⟩
    · exact ⟨rfl, rfl, hdur, hres, hcod, hfmt, hthumb⟩
    · intro hc
      have hns : ("failed" : String) ≠ "ready" := by decide
      exact hns hc.1

/-- Witness for `processJob_terminal_exclusive` on a fresh record. -/
theorem processJob_terminal_exclusive_witness :
    (freshVideo.duration = none ∧ freshVideo.resolution = none ∧
     freshVideo.codec = none ∧ freshVideo.format = none ∧
     freshVideo.thumbnailFilename = none ∧ freshVideo.processingError = none) ∧
    ∃ r, (processJob (some freshVideo) retrySuccess "v2").1 = some r ∧
      terminalExclusive r :=
  ⟨⟨rfl, rfl, rfl, rfl, rfl, rfl⟩,
   processJob_terminal_exclusive freshVideo retrySuccess "v2" rfl rfl rfl rfl rfl rfl⟩

/-- Witness for `lowBitrateFlags_guarded` at duration 0. -/
theorem lowBitrateFlags_guarded_witness :
    (⟨0, 5, some (1920, 1080), true⟩ : ClassifierInput).duration ≤ 0 ∧
    (lowBitrateFlags ⟨0, 5, some (1920, 1080), true⟩ = [] ∧
     "Unusually low bitrate/quality" ∉
       (analyzeSensitivity ⟨0, 5, some (1920, 1080), true⟩ "t" "d").flags) :=
  ⟨by norm_num, lowBitrateFlags_guarded ⟨0, 5, some (1920, 1080), true⟩ "t" "d" (by norm_num)⟩

/-- Helper: `Set.add` grows the in-flight list by at most one. -/
theorem setAdd_length_le (l : List String) (v : String) :
    (setAdd l v).length ≤ l.length + 1 := by
  unfold setAdd
  split_ifs <;> simp

/-- Helper: one synchronous `processNext` activation preserves the
concurrency bound — it dispatches only under the capacity check. -/
theorem processNextStep_conc (s : QState)
    (h : s.processing.length ≤ s.maxConcurrent) :
    (processNextStep s).processing.length ≤ (processNextStep s).maxConcurrent := by
  unfold processNextStep
  split_ifs with h1 h2
  · exact h
  · exact h
  · cases hq : s.queue with
    | nil => exact h
    | cons v rest =>
      dsimp only
      split_ifs with h3
      · exact h
      · have hlen := setAdd_length_le s.processing v
        have hlt : s.processing.length < s.maxConcurrent := not_le.mp h2
        show (setAdd s.processing v).length ≤ s.maxConcurrent
        omega

/-- Helper: `start` preserves the concurrency bound. -/
theorem start_conc (s : QState) (h : s.processing.length ≤ s.maxConcurrent) :
    (start s).processing.length ≤ (start s).maxConcurrent := by
  unfold start
  split_ifs
  · exact h
  · exact processNextStep_conc { s with isRunning := true } h

/-- Helper: `enqueue` preserves the concurrency bound. -/
theorem enqueue_conc (s : QState) (v : String)
    (h : s.processing.length ≤ s.maxConcurrent) :
    (enqueue s v).processing.length ≤ (enqueue s v).maxConcurrent := by
  unfold enqueue
  split_ifs with hg
  · dsimp only
    split_ifs with hr
    · exact h
    · exact start_conc { s with queue := s.queue ++ [v] } h
  · exact h

/-- Helper: every single step preserves the concurrency bound. -/
theorem step_conc (a b : QState) (hab : Step a b)
    (h : a.processing.length ≤ a.maxConcurrent) :
    b.processing.length ≤ b.maxConcurrent := by
  obtain ⟨l, hl⟩ := hab
  cases hl with
  | enq s v => exact enqueue_conc a v h
  | start s => exact start_conc a h
  | stop s => exact h
  | clear s => exact Nat.zero_le _
  | runScheduled s hpos =>
    exact processNextStep_conc { a with scheduled := a.scheduled - 1 } h
  | complete s v hv =>
    have herase : (a.processing.erase v).length = a.processing.length - 1 :=
      List.length_erase_of_mem hv
    show (a.processing.erase v).length ≤ a.maxConcurrent
    omega

/-- C1: in every state reachable by any sequence of
`enqueue`/`start`/`stop`/`clear` calls and scheduler-loop steps, the
number of in-flight jobs never exceeds `maxConcurrent`. -/
theorem processing_le_maxConcurrent (M : ℕ) (s : QState) (h : Reachable M s) :
    s.processing.length ≤ s.maxConcurrent := by
  induction h with
  | refl => exact Nat.zero_le M
  | tail hab hbc ih => exact step_conc _ _ hbc ih

/-- Witness for `processing_le_maxConcurrent` after one `enqueue` on a
fresh queue with `maxConcurrent = 2`. -/
theorem processing_le_maxConcurrent_witness :
    Reachable 2 (enqueue (initState 2) "a") ∧
    (enqueue (initState 2) "a").processing.length ≤
      (enqueue (initState 2) "a").maxConcurrent :=
  ⟨Relation.ReflTransGen.tail Relation.ReflTransGen.refl
     ⟨QLabel.enq "a", LStep.enq (initState 2) "a"⟩,
   processing_le_maxConcurrent 2 (enqueue (initState 2) "a")
     (Relation.ReflTransGen.tail Relation.ReflTransGen.refl
       ⟨QLabel.enq "a", LStep.enq (initState 2) "a"⟩)⟩

/-- C2 counterexample: at videoId `""` the claim fails.  On a fresh
stopped queue, `enqueue("")` pushes the id and auto-starts the scheduler,
whose synchronous `processNext` shifts the head and then drops it at the
falsy check `if (!videoId)` — so the first call leaves no occurrence of
`""` anywhere, and the second call changes the queue state again by
re-pushing it. -/
theorem enqueue_empty_id_not_idempotent :
    enqueue (enqueue (initState 2) "") "" ≠ enqueue (initState 2) "" := by
  decide

/-- C2 amended: for every nonempty videoId (every real video id — the
empty string is falsy in JavaScript and is silently dropped by the
dispatcher), enqueuing twice in succession from any state holding at most
one occurrence of the id leaves exactly one occurrence of it across the
pending list and the in-flight set, and the second call changes no queue
state. -/
theorem enqueue_idempotent (s : QState) (v : String) (hv : v ≠ "")
    (hocc : occCount s v ≤ 1) :
    enqueue (enqueue s v) v = enqueue s v ∧
    occCount (enqueue (enqueue s v) v) v = 1 := by
  by_cases hmem : v ∉ s.queue ∧ v ∉ s.processing
  · obtain ⟨hq, hp⟩ := hmem
    have hcnt : s.queue.count v = 0 := List.count_eq_zero_of_not_mem hq
    have key : (v ∈ (enqueue s v).queue ∨ v ∈ (enqueue s v).processing) ∧
        occCount (enqueue s v) v = 1 := by
      unfold enqueue
      rw [if_pos ⟨hq, hp⟩]
      dsimp only
      by_cases hrun : s.isRunning
      · rw [if_pos hrun]
        constructor
        · left
          simp
        · unfold occCount
          simp [List.count_append, hcnt, hp]
      · rw [if_neg hrun]
        unfold start
        rw [if_neg hrun]
        unfold processNextStep
        rw [if_neg (by simp)]
        by_cases hcap : s.maxConcurrent ≤ s.processing.length
        · rw [if_pos hcap]
          constructor
          · left
            simp
          · unfold occCount
            simp [List.count_append, hcnt, hp]
        · rw [if_neg hcap]
          cases hqq : s.queue with
          | nil =>
            simp only [List.nil_append]
            rw [if_neg hv]
            constructor
            · right
              unfold setAdd
              rw [if_neg hp]
              simp
            · unfold occCount setAdd
              rw [if_neg hp]
              simp [hp]
          | cons w t =>
            have hwv : w ≠ v := by
              intro hwv
              subst hwv
              rw [hqq] at hq
              exact hq (List.mem_cons_self w t)
            have hcnt2 : t.count v = 0 := by
              rw [hqq] at hcnt
              simp [List.count_cons, hwv] at hcnt
              omega
            simp only [List.cons_append]
            by_cases hw : w = ""
            · rw [if_pos hw]
              constructor
              · left
                simp
              · unfold occCount
                simp [List.count_append, hcnt2, hp]
            · rw [if_neg hw]
              constructor
              · left
                simp
              · unfold occCount
                have hvmem : v ∉ setAdd s.processing w := by
                  unfold setAdd
                  split_ifs
                  · exact hp
                  · intro hcontra
                    rcases List.mem_append.mp hcontra with h1 | h1
                    · exact hp h1
                    · exact hwv (List.mem_singleton.mp h1).symm
                simp [List.count_append, hcnt2, hvmem]
    obtain ⟨hmem2, hocc2⟩ := key
    have hnoop : enqueue (enqueue s v) v = enqueue s v := by
      generalize hgen : enqueue s v = u at hmem2
      have hcond : ¬ (v ∉ u.queue ∧ v ∉ u.processing) := by
        intro hcontra
        rcases hmem2 with h | h
        · exact hcontra.1 h
        · exact hcontra.2 h
      unfold enqueue
      rw [if_neg hcond]
    exact ⟨hnoop, by rw [hnoop]; exact hocc2⟩
  · rw [not_and_or, not_not, not_not] at hmem
    have hcond : ¬ (v ∉ s.queue ∧ v ∉ s.processing) := by
      intro hcontra
      rcases hmem with h | h
      · exact hcontra.1 h
      · exact hcontra.2 h
    have heq : enqueue s v = s := by
      unfold enqueue
      rw [if_neg hcond]
    rw [heq, heq]
    refine ⟨rfl, ?_⟩
    unfold occCount at hocc ⊢
    rcases hmem with h | h
    · have hpos : 0 < s.queue.count v := List.count_pos_iff.mpr h
      by_cases hp2 : v ∈ s.processing
      · simp only [hp2, if_pos] at hocc ⊢
        omega
      · simp only [hp2, if_neg, if_false] at hocc ⊢
        omega
    · simp only [h, if_pos] at hocc ⊢
      omega

/-- Witness for `enqueue_idempotent` at id `"a"` on a fresh queue. -/
theorem enqueue_idempotent_witness :
    ("a" : String) ≠ "" ∧ occCount (initState 2) "a" ≤ 1 ∧
    (enqueue (enqueue (initState 2) "a") "a" = enqueue (initState 2) "a" ∧
     occCount (enqueue (enqueue (initState 2) "a") "a") "a" = 1) :=
  ⟨by decide, by decide, enqueue_idempotent (initState 2) "a" (by decide) (by decide)⟩

/-- C4: the claim fails on the code, contradicting the design stated in the
spec — `processNext` runs `await this.processJob(videoId)` (line
98), so the single scheduler chain is suspended until the job body
completes and only the `finally` block schedules the next activation.
Concretely: after `enqueue("v1"); enqueue("v2")` on a fresh queue with
`maxConcurrent = 2`, job `v1` is in flight, `v2` is pending and a
concurrency slot is free, yet along every sequence of steps that does not
stop or clear the queue and in which the job body of `v1` has not completed,
`v2` stays in the pending list and is never dispatched — the loop cannot
dequeue further jobs while a job body is executing. -/
theorem await_blocks_loop :
    s2c4.processing = ["v1"] ∧ s2c4.queue = ["v2"] ∧
    s2c4.processing.length < s2c4.maxConcurrent ∧
    ∀ t, ReachAvoiding c4Bad s2c4 t → "v2" ∈ t.queue ∧ "v2" ∉ t.processing := by
  have hinv : ∀ t, ReachAvoiding c4Bad s2c4 t →
      t.processing = ["v1"] ∧ t.scheduled = 0 ∧ t.isRunning = true ∧
      "v2" ∈ t.queue := by
    intro t ht
    induction ht with
    | refl => exact ⟨by decide, by decide, by decide, by decide⟩
    | tail hab hbc ih =>
      obtain ⟨hproc, hsched, hrun, hq2⟩ := ih
      obtain ⟨l, hbad, hl⟩ := hbc
      cases hl with
      | enq b w =>
        unfold enqueue
        split_ifs with hg
        · dsimp only
          rw [if_pos hrun]
          exact ⟨hproc, hsched, hrun, List.mem_append_left _ hq2⟩
        · exact ⟨hproc, hsched, hrun, hq2⟩
      | start b =>
        unfold start
        rw [if_pos hrun]
        exact ⟨hproc, hsched, hrun, hq2⟩
      | stop b => exact absurd (Or.inl rfl) hbad
      | clear b => exact absurd (Or.inr (Or.inl rfl)) hbad
      | runScheduled b hpos =>
        rw [hsched] at hpos
        exact absurd hpos (by omega)
      | complete b w hw =>
        rw [hproc] at hw
        have hwv : w = "v1" := List.mem_singleton.mp hw
        subst hwv
        exact absurd (Or.inr (Or.inr rfl)) hbad
  refine ⟨by decide, by decide, by decide, ?_⟩
  intro t ht
  obtain ⟨hproc, hsched, hrun, hq2⟩ := hinv t ht
  refine ⟨hq2, ?_⟩
  rw [hproc]
  decide

/-- Witness for `await_blocks_loop` at the state reached by the two
enqueues themselves. -/
theorem await_blocks_loop_witness :
    ReachAvoiding c4Bad s2c4 s2c4 ∧
    ("v2" ∈ s2c4.queue ∧ "v2" ∉ s2c4.processing) :=
  ⟨Relation.ReflTransGen.refl,
   await_blocks_loop.2.2.2 s2c4 Relation.ReflTransGen.refl⟩
